import Mathlib

/-!
Verification of the mecademic_pydriver client library.

The Python sources are shallowly embedded here:
* strings are `List Char`, socket reads are explicit chunk lists;
* `MessageReceiver` (stream framer) is a buffer plus a message queue;
* `MecademicLog` is a bounded list of `(code, payload)` events;
* fallible Python code returns `Except PyErr`, and state mutated before a
  raise is threaded explicitly so that side effects survive the exception.
-/

set_option autoImplicit false
set_option synthInstance.maxSize 512

deriving instance DecidableEq for Except

namespace Meca

/-- The wire delimiter: a single NUL byte (`message_terminator = "\x00"`). -/
def messageTerminator : Char := Char.ofNat 0

/-- A decoded `(code, payload)` event, matching the Python tuple. -/
abbrev Event := List Char × List Char

/-- Runtime data carried by the `RuntimeError` raises in `RobotController`:
either the offending event (`handle_specific_error` / `handle_errors`) or the
list of codes that were searched (`check_response`). -/
inductive RuntimeDetail where
  | errorEvent : Event → RuntimeDetail
  | codesNotFound : List (List Char) → RuntimeDetail
deriving DecidableEq

/-- The Python exceptions that the embedded code can raise. -/
inductive PyErr where
  | attributeError : String → PyErr
  | typeError : String → PyErr
  | valueError : String → PyErr
  | indexError : String → PyErr
  | runtimeError : String → RuntimeDetail → PyErr
deriving DecidableEq

/-- Whether an exception is a `RuntimeError` (the only class caught by the
`except RuntimeError` clause in `send_command_handled`). -/
def PyErr.isRuntime : PyErr → Bool
  | .runtimeError _ _ => true
  | _ => false

/-- A Python value that is either a `str` or a `list`; `update_log` passes a
whole `list` of messages to the single-message decoder, so the embedding must
distinguish the two dynamic types. -/
inductive PyVal where
  | str : List Char → PyVal
  | list : List PyVal → PyVal

/-- `s.startswith(p)` for plain strings. -/
def strStartsWith : List Char → List Char → Bool
  | _, [] => true
  | [], _ :: _ => false
  | c :: cs, p :: ps => c = p && strStartsWith cs ps

/-- `s.endswith(p)` for plain strings. -/
def strEndsWith (s p : List Char) : Bool :=
  strStartsWith s.reverse p.reverse

/-- `s.find(pat)`: index of the leftmost occurrence of `pat`, if any
(the Python function returns `-1` when there is none). -/
def strFind (pat : List Char) : List Char → Option Nat
  | [] => if strStartsWith [] pat then some 0 else none
  | c :: cs =>
    if strStartsWith (c :: cs) pat then some 0
    else (strFind pat cs).map (· + 1)

/-- Python slice `s[a:b]` with `0 ≤ a ≤ b ≤ len s`. -/
def pySlice (s : List Char) (a b : Nat) : List Char :=
  (s.take b).drop a

/-- `parsingLib.message2codepayload` on an actual string:
checks the leading `[`, the trailing `]` and the `][` separator and splits
the message into `(code, payload)`; raises `ValueError` otherwise.  The slice
`message[start_payload_index:-1]` is `pySlice s start (len s - 1)`. -/
def message2codepayloadStr (message : List Char) : Except PyErr Event :=
  if ¬ strStartsWith message ['['] then
    .error (.valueError "message2codepayload : invalid start char")
  else if ¬ strEndsWith message [']'] then
    .error (.valueError "message2codepayload : invalid end char")
  else
    match strFind [']', '['] message with
    | none => .error (.valueError "message2codepayload : invalid message")
    | some endCodeIndex =>
      let startPayloadIndex := endCodeIndex + 2
      let code := pySlice message 1 endCodeIndex
      let payload := pySlice message startPayloadIndex (message.length - 1)
      .ok (code, payload)

/-- `parsingLib.message2codepayload` as called dynamically: its first step is
`message.startswith("[")`, and a Python `list` has no `startswith` attribute,
so applying it to a list raises `AttributeError` (this is exactly what
`MecademicLog.update_log` does). -/
def message2codepayload : PyVal → Except PyErr Event
  | .str s => message2codepayloadStr s
  | .list _ => .error (.attributeError "list object has no attribute startswith")

/-- `parsingLib.messages2codepayload`: decode each message of a list. -/
def messages2codepayload (messages : List (List Char)) : Except PyErr (List Event) :=
  messages.foldlM (fun acc m => do
    let e ← message2codepayloadStr m
    pure (acc ++ [e])) []

/-! ## MessageReceiver: the stream framer -/

/-- `buffer.partition(term)` for a single-character terminator: `none` when the
terminator does not occur, otherwise the parts strictly before and after its
leftmost occurrence. -/
def splitOnce (t : Char) : List Char → Option (List Char × List Char)
  | [] => none
  | c :: cs =>
    if c = t then some ([], cs)
    else (splitOnce t cs).map (fun p => (c :: p.1, p.2))

/-- The loop of `MessageReceiver.parse_buffer`, with an explicit iteration
bound: repeatedly split the buffer at the leftmost terminator, collecting the
complete messages in order; the trailing segment with no terminator is put
back into the buffer.  Every iteration consumes at least one character, so a
bound equal to the buffer length never runs out (`parseBufferGo_fuel`). -/
def parseBufferGo (t : Char) : Nat → List Char → List (List Char) × List Char
  | 0, buf => ([], buf)
  | fuel + 1, buf =>
    match splitOnce t buf with
    | none => ([], buf)
    | some (msg, rest) =>
      let r := parseBufferGo t fuel rest
      (msg :: r.1, r.2)

/-- The loop of `MessageReceiver.parse_buffer`, run to completion. -/
def parseBufferAux (t : Char) (buf : List Char) : List (List Char) × List Char :=
  parseBufferGo t buf.length buf

/-- The framer state: the incomplete-frame buffer and the queue of complete
messages, oldest first. -/
structure MessageReceiver where
  buffer : List Char
  messages : List (List Char)
deriving DecidableEq

/-- `MessageReceiver.parse_buffer`: move every complete frame from the buffer
to the back of the message queue. -/
def parse_buffer (r : MessageReceiver) : MessageReceiver :=
  let p := parseBufferAux messageTerminator r.buffer
  { buffer := p.2, messages := r.messages ++ p.1 }

/-- One socket read feeding `chunk` into the buffer followed by a parse
(the effect of `MessageReceiver.recv` when the chunk is available). -/
def feedChunk (r : MessageReceiver) (chunk : List Char) : MessageReceiver :=
  parse_buffer { r with buffer := r.buffer ++ chunk }

/-- Feeding a sequence of reads one by one. -/
def feedChunks (r : MessageReceiver) (chunks : List (List Char)) : MessageReceiver :=
  chunks.foldl feedChunk r

/-- `MessageReceiver.recv_all`: drain every available chunk into the buffer,
then parse once. -/
def recv_all (chunks : List (List Char)) (r : MessageReceiver) : MessageReceiver :=
  parse_buffer { r with buffer := r.buffer ++ chunks.flatten }

/-- The pop loop of `MessageReceiver.get_last_messages`: up to `num` times,
pop the newest message (`self.messages.pop(-1)`) and collect it; returns the
collected messages (newest first) and the remaining queue. -/
def takeLastLoop (num : Nat) (ms acc : List (List Char)) :
    List (List Char) × List (List Char) :=
  match num with
  | 0 => (acc, ms)
  | n + 1 =>
    match ms.getLast? with
    | none => (acc, ms)
    | some m => takeLastLoop n ms.dropLast (acc ++ [m])

/-- `MessageReceiver.get_last_messages(num)` with `recv_all=True` and
`discard_previous_msgs=True` (the defaults, used by both `MecademicLog` and
`RobotFeedback`): drain the socket, pop the `num` newest messages, return them
oldest first, and clear the remaining queue. -/
def get_last_messages (num : Nat) (chunks : List (List Char)) (r : MessageReceiver) :
    List (List Char) × MessageReceiver :=
  let r1 := recv_all chunks r
  let p := takeLastLoop num r1.messages []
  (p.1.reverse, { r1 with messages := [] })

/-- The two distinct ways the source invokes `select.select` for reading. -/
inductive SelectCall where
  | withTimeout : Rat → SelectCall
  | blocking : SelectCall
deriving DecidableEq

/-- Python truthiness of the `timeout` argument: `None`, `0` and `0.0` are
falsy, every other number is truthy. -/
def timeoutTruthy : Option Rat → Bool
  | none => false
  | some t => decide (t ≠ 0)

/-- `MessageReceiver.wait_for_new_messages(timeout)`: `if timeout:` selects
with the timeout, `else` selects with no timeout at all (blocking select). -/
def wait_for_new_messages (timeout : Option Rat) : SelectCall :=
  if timeoutTruthy timeout then .withTimeout ((timeout.getD 0)) else .blocking

/-! ## MecademicLog: the bounded event log -/

/-- The newest `n` elements of a list, oldest first. -/
def takeLast {α : Type} (n : Nat) (xs : List α) : List α :=
  xs.drop (xs.length - n)

/-- `deque.extend` on a deque of maximum length `maxlen`: append the new
elements, evicting the oldest beyond capacity. -/
def dequeExtend (maxlen : Nat) (log news : List Event) : List Event :=
  takeLast maxlen (log ++ news)

/-- `deque.remove(x)`: remove the first element equal to `x` (if present). -/
def removeFirstEq (x : Event) : List Event → List Event
  | [] => []
  | y :: ys => if y = x then ys else y :: removeFirstEq x ys

/-- `MecademicLog.remove_all_code(code)`: collect every message whose code
matches, then `deque.remove` each collected message in turn. -/
def remove_all_code (code : List Char) (log : List Event) : List Event :=
  (log.filter (fun m => m.1 = code)).foldl (fun l m => removeFirstEq m l) log

/-- `MecademicLog.get_last_code_occurance(code, delete_others)`:
scan the log newest-to-oldest for the first message with the given code.
If found and `delete_others` is true, call `remove_all_code`.
If found and `delete_others` is false, the source runs `self.log.reverse()`,
`self.log.remove(message)` and then evaluates `self.log.reverse` *without
calling it* (the parentheses are missing), so the log is left reversed. -/
def get_last_code_occurance (code : List Char) (delete_others : Bool)
    (log : List Event) : Option Event × List Event :=
  match log.reverse.find? (fun m => m.1 = code) with
  | none => (none, log)
  | some message =>
    if delete_others then (some message, remove_all_code code log)
    else (some message, removeFirstEq message log.reverse)

/-- Result of one `MecademicLog.update_log` call: the receiver and log after
the call, the batches handed to the `on_new_messages_received` callback, and
the exception the call raised, if any. -/
structure UpdateResult where
  receiver : MessageReceiver
  log : List Event
  observerCalls : List Event
  err : Option PyErr
deriving DecidableEq

/-- `MecademicLog.update_log`: (after an optional blocking wait) take the
newest `maxlen` messages from the receiver, then apply
`message2codepayload` — the *single-message* decoder — to the whole list.
A list has no `startswith` attribute, so this raises `AttributeError` on
every call, after the receiver has already been drained; the callback is
never invoked and the log is never extended.  (The `.ok` branch mirrors what
the remaining two statements would do; it is unreachable.) -/
def update_log (chunks : List (List Char)) (maxlen : Nat)
    (r : MessageReceiver) (log : List Event) : UpdateResult :=
  let p := get_last_messages maxlen chunks r
  match message2codepayload (PyVal.list (p.1.map PyVal.str)) with
  | .error e => ⟨p.2, log, [], some e⟩
  | .ok cp => ⟨p.2, dequeExtend maxlen log [cp], [cp], none⟩

/-! ## RobotController: command dispatch -/

/-- `RobotController.handle_specific_error(code)`: purge-others lookup of the
code; raise `RuntimeError` carrying the found event, else return the log. -/
def handle_specific_error (code : List Char) (method : String)
    (log : List Event) : Except PyErr (List Event) :=
  let p := get_last_code_occurance code true log
  match p.1 with
  | some m => .error (.runtimeError method (.errorEvent m))
  | none => .ok p.2

/-- `RobotController.handle_errors`: look up the code `"1"` (the source
comment says "error code starts with 1", but `get_last_code_occurance`
compares codes with `==`, so only a code exactly equal to `"1"` matches);
raise `RuntimeError` if found. -/
def handle_errors (method : String) (log : List Event) : Except PyErr (List Event) :=
  let p := get_last_code_occurance ['1'] false log
  match p.1 with
  | some m => .error (.runtimeError method (.errorEvent m))
  | none => .ok p.2

/-- The `for code in codes` loop of `RobotController.check_response`:
purge-others lookup of each code in order, returning the first hit;
raise `RuntimeError` naming the attempted codes when none is found. -/
def check_response_loop (method : String) (attempted : List (List Char)) :
    List (List Char) → List Event → Except PyErr (Event × List Event)
  | [], _ => .error (.runtimeError method (.codesNotFound attempted))
  | c :: cs, log =>
    let p := get_last_code_occurance c true log
    match p.1 with
    | some m => .ok (m, p.2)
    | none => check_response_loop method attempted cs p.2

/-- `RobotController.check_response(codes)`: return `[]` (modelled as `none`)
when `codes` is empty, otherwise the first found message (`some`). -/
def check_response (codes : List (List Char)) (method : String)
    (log : List Event) : Except PyErr (Option Event × List Event) :=
  if codes = [] then .ok (none, log)
  else
    match check_response_loop method codes codes log with
    | .error e => .error e
    | .ok (m, log') => .ok (some m, log')

/-- The `for code in errors_code: self.handle_specific_error(code, ...)` loop
of `send_command_handled`. -/
def handle_specific_errors_loop (method : String) :
    List (List Char) → List Event → Except PyErr (List Event)
  | [], log => .ok log
  | c :: cs, log =>
    match handle_specific_error c method log with
    | .error e => .error e
    | .ok log' => handle_specific_errors_loop method cs log'

/-- `RobotController.request_commands_response_timeout` default (1.0 s). -/
def request_commands_response_timeout : Rat := 1

/-- The timeout actually used by `RobotController.send_request_command`:
`if not timeout: timeout = self.request_commands_response_timeout`, so both
`None` and `0` are replaced by the default before dispatch. -/
def send_request_command_timeout (timeout : Option Rat) : Option Rat :=
  if timeoutTruthy timeout then timeout else some request_commands_response_timeout

/-- The Python call `update_log(wait_for_new_messages=..., timeout=...)` made
by `send_command_handled`: `MecademicLog.update_log` accepts no `timeout`
parameter, so the call raises `TypeError` before the body runs and before any
side effect. -/
def update_log_timeout_kwarg (r : MessageReceiver) (log : List Event)
    (timeout : Option Rat) : UpdateResult :=
  ⟨r, log, [], some (.typeError "update_log got an unexpected keyword argument")⟩

/-- The control-connection state threaded through a dispatch: the framer, the
event log with its capacity, and the commands written to the socket. -/
structure ControllerState where
  receiver : MessageReceiver
  log : List Event
  maxlen : Nat
  sent : List (List Char)
deriving DecidableEq

/-- `RobotController.send_command_handled`: poll-mode log update, stale-code
removal, transmit, wait-and-check (specific errors, then generic errors, then
responses), with one retry of the wait-and-check when `check_response` raises
`RuntimeError`.  `chunks1`/`chunks2`/`chunks3` are the socket bytes available
at each of the three possible `update_log` calls.  Every path after the first
`update_log` is unreachable: that call always raises `AttributeError`, and the
two later `update_log` calls pass the unsupported `timeout` keyword. -/
def send_command_handled
    (chunks1 chunks2 chunks3 : List (List Char))
    (cmd : List Char) (method : String)
    (codes_to_remove_from_log errors_code responses_code : List (List Char))
    (handle_all_errors : Bool) (timeout : Option Rat)
    (st : ControllerState) : ControllerState × Except PyErr (Option Event) :=
  let u1 := update_log chunks1 st.maxlen st.receiver st.log
  match u1.err with
  | some e => ({ st with receiver := u1.receiver, log := u1.log }, .error e)
  | none =>
    let log1 := codes_to_remove_from_log.foldl (fun l c => remove_all_code c l) u1.log
    let log2 := responses_code.foldl (fun l c => remove_all_code c l) log1
    let sent1 := st.sent ++ [cmd ++ [messageTerminator]]
    let u2 := update_log_timeout_kwarg u1.receiver log2 timeout
    match u2.err with
    | some e =>
      ({ receiver := u2.receiver, log := u2.log, maxlen := st.maxlen, sent := sent1 },
        .error e)
    | none =>
      match handle_specific_errors_loop method errors_code u2.log with
      | .error e =>
        ({ receiver := u2.receiver, log := u2.log, maxlen := st.maxlen, sent := sent1 },
          .error e)
      | .ok log3 =>
        match (if handle_all_errors then handle_errors method log3 else .ok log3) with
        | .error e =>
          ({ receiver := u2.receiver, log := log3, maxlen := st.maxlen, sent := sent1 },
            .error e)
        | .ok log4 =>
          match check_response responses_code method log4 with
          | .ok (res, log5) =>
            ({ receiver := u2.receiver, log := log5, maxlen := st.maxlen, sent := sent1 },
              .ok res)
          | .error e1 =>
            if e1.isRuntime then
              -- retry once: update, error checks, response check
              let u3 := update_log_timeout_kwarg u2.receiver log4 timeout
              match u3.err with
              | some e =>
                ({ receiver := u3.receiver, log := u3.log, maxlen := st.maxlen,
                   sent := sent1 }, .error e)
              | none =>
                match handle_specific_errors_loop method errors_code u3.log with
                | .error e =>
                  ({ receiver := u3.receiver, log := u3.log, maxlen := st.maxlen,
                     sent := sent1 }, .error e)
                | .ok log6 =>
                  match (if handle_all_errors then handle_errors method log6
                         else .ok log6) with
                  | .error e =>
                    ({ receiver := u3.receiver, log := log6, maxlen := st.maxlen,
                       sent := sent1 }, .error e)
                  | .ok log7 =>
                    match check_response responses_code method log7 with
                    | .ok (res, log8) =>
                      ({ receiver := u3.receiver, log := log8, maxlen := st.maxlen,
                         sent := sent1 }, .ok res)
                    | .error e =>
                      ({ receiver := u3.receiver, log := log7, maxlen := st.maxlen,
                         sent := sent1 }, .error e)
            else
              ({ receiver := u2.receiver, log := log4, maxlen := st.maxlen,
                 sent := sent1 }, .error e1)

/-! ## RobotFeedback: real-time telemetry (firmware v9 code map) -/

/-- Firmware v9 real-time joint feedback code. -/
def rt_joints_fb_code : List Char := "2210".toList

/-- Firmware v9 real-time pose feedback code. -/
def rt_pose_fb_code : List Char := "2201".toList

/-- Firmware v9 real-time cartesian velocity code. -/
def rt_cart_vel_code : List Char := "2214".toList

/-- Status robot code (all firmware versions). -/
def status_robot_fb_code : List Char := "2007".toList

/-- Python `str.split(sep)` for a single-character separator; the result is
never empty (`"".split(',') == [""]`). -/
def pySplit (sep : Char) : List Char → List (List Char)
  | [] => [[]]
  | c :: cs =>
    match pySplit sep cs with
    | [] => [[]]
    | w :: ws => if c = sep then [] :: w :: ws else (c :: w) :: ws

/-- `parsingLib.payload2tuple(payload, output_type)`: split the payload on
commas and apply the output type constructor to each piece; `parse` stands
for the `output_type` conversion (`float` at the telemetry call sites). -/
def payload2tuple {α : Type} (parse : List Char → α) (payload : List Char) : List α :=
  (pySplit ',' payload).map parse

/-- `parsingLib.extract_payload_from_messages(code, messages)`: decode every
message in turn and keep overwriting `payload` at *each* match, so the value
returned comes from the last matching message in list order (the loop has no
`break`, although its doc string says "first occurence"). -/
def extract_payload_from_messages (code : List Char)
    (messages : List (List Char)) : Except PyErr (Option (List Char)) :=
  messages.foldlM (fun payload message => do
    let cp ← message2codepayloadStr message
    pure (if cp.1 = code then some cp.2 else payload)) none

/-- The positionally decoded status payload
(`parsingLib.status_robot_list2dict`). -/
structure StatusDict (α : Type) where
  as_ : α
  hs : α
  sm : α
  es : α
  pm : α
  eob : α
  eom : α
deriving DecidableEq

/-- `parsingLib.status_robot_list2dict`: index fields 0..6 of the payload
tuple; fewer than 7 elements raises `IndexError`. -/
def status_robot_list2dict {α : Type} (l : List α) : Except PyErr (StatusDict α) :=
  match l with
  | a :: b :: c :: d :: e :: f :: g :: _ => .ok ⟨a, b, c, d, e, f, g⟩
  | _ => .error (.indexError "status_robot_payload")

/-- `RobotFeedback.set_rt_joints_from_messages`. -/
def set_rt_joints_from_messages {α : Type} (parse : List Char → α)
    (messages : List (List Char)) : Except PyErr (Option (List α)) := do
  let p ← extract_payload_from_messages rt_joints_fb_code messages
  match p with
  | some payload =>
    if payload ≠ [] then pure (some (payload2tuple parse payload)) else pure none
  | none => pure none

/-- `RobotFeedback.set_rt_pose_from_messages`. -/
def set_rt_pose_from_messages {α : Type} (parse : List Char → α)
    (messages : List (List Char)) : Except PyErr (Option (List α)) := do
  let p ← extract_payload_from_messages rt_pose_fb_code messages
  match p with
  | some payload =>
    if payload ≠ [] then pure (some (payload2tuple parse payload)) else pure none
  | none => pure none

/-- `RobotFeedback.set_rt_cart_vel_from_messages`. -/
def set_rt_cart_vel_from_messages {α : Type} (parse : List Char → α)
    (messages : List (List Char)) : Except PyErr (Option (List α)) := do
  let p ← extract_payload_from_messages rt_cart_vel_code messages
  match p with
  | some payload =>
    if payload ≠ [] then pure (some (payload2tuple parse payload)) else pure none
  | none => pure none

/-- `RobotFeedback.set_status_robot_from_messages`. -/
def set_status_robot_from_messages {α : Type} (parse : List Char → α)
    (messages : List (List Char)) : Except PyErr (Option (StatusDict α)) := do
  let p ← extract_payload_from_messages status_robot_fb_code messages
  match p with
  | some payload =>
    if payload ≠ [] then do
      let d ← status_robot_list2dict (payload2tuple parse payload)
      pure (some d)
    else pure none
  | none => pure none

/-- `RobotFeedback.get_data` with `firmware_version_9=True`: (after an
optional wait) take the 10 newest messages, reverse them so the newest comes
first, and extract joints, pose, cartesian velocity and status from that
window.  `parse` stands for the `float` conversion applied to each payload
field; the selection of which frame supplies each value is independent of it. -/
def get_data_v9 {α : Type} (parse : List Char → α) (chunks : List (List Char))
    (r : MessageReceiver) :
    MessageReceiver ×
      Except PyErr (Option (List α) × Option (List α) × Option (List α) ×
        Option (StatusDict α)) :=
  let p := get_last_messages 10 chunks r
  (p.2,
    if p.1 = [] then .ok (none, none, none, none)
    else do
      let messages := p.1.reverse
      let joints ← set_rt_joints_from_messages parse messages
      let pose ← set_rt_pose_from_messages parse messages
      let cart_vel ← set_rt_cart_vel_from_messages parse messages
      let robot_status ← set_status_robot_from_messages parse messages
      pure (joints, pose, cart_vel, robot_status))

/-- A sequence of frames, each followed by the NUL delimiter, as it appears
on the wire. -/
def joinFrames (frames : List (List Char)) : List Char :=
  (frames.map (fun f => f ++ [messageTerminator])).flatten

/-! ## Supporting lemmas -/

theorem splitOnce_eq_none {t : Char} :
    ∀ (xs : List Char), splitOnce t xs = none ↔ t ∉ xs := by
  intro xs
  induction xs with
  | nil => simp [splitOnce]
  | cons c cs ih =>
    by_cases hc : c = t
    · subst hc; simp [splitOnce]
    · simp only [splitOnce, if_neg hc, Option.map_eq_none', ih, List.mem_cons]
      constructor
      · intro h hmem
        rcases hmem with h1 | h2
        · exact hc h1.symm
        · exact h h2
      · intro h hmem
        exact h (Or.inr hmem)

theorem splitOnce_append_some {t : Char} :
    ∀ {xs : List Char} {m r : List Char} (ys : List Char),
      splitOnce t xs = some (m, r) → splitOnce t (xs ++ ys) = some (m, r ++ ys) := by
  intro xs
  induction xs with
  | nil => intro m r ys h; simp [splitOnce] at h
  | cons c cs ih =>
    intro m r ys h
    by_cases hc : c = t
    · simp only [splitOnce, if_pos hc, Option.some_inj, Prod.mk.injEq] at h
      simp [splitOnce, hc, ← h.1, ← h.2]
    · simp only [splitOnce, if_neg hc, Option.map_eq_some'] at h
      rcases h with ⟨⟨m', r'⟩, hp, hpr⟩
      cases hpr
      simp [splitOnce, hc, ih ys hp]

theorem splitOnce_not_mem_append {t : Char} :
    ∀ {xs : List Char}, t ∉ xs → ∀ (ys : List Char),
      splitOnce t (xs ++ t :: ys) = some (xs, ys) := by
  intro xs
  induction xs with
  | nil => intro _ ys; simp [splitOnce]
  | cons c cs ih =>
    intro hmem ys
    have hc : ¬ c = t := fun h => hmem (h ▸ List.mem_cons_self c cs)
    have hcs : t ∉ cs := fun h => hmem (List.mem_cons_of_mem c h)
    simp [splitOnce, hc, ih hcs ys]

theorem splitOnce_length {t : Char} :
    ∀ {buf m r : List Char}, splitOnce t buf = some (m, r) → r.length < buf.length := by
  intro buf
  induction buf with
  | nil => intro m r h; simp [splitOnce] at h
  | cons c cs ih =>
    intro m r h
    by_cases hc : c = t
    · simp [splitOnce, hc] at h
      simp [← h.2]
    · simp only [splitOnce, if_neg hc, Option.map_eq_some'] at h
      rcases h with ⟨⟨m', r'⟩, hp, hpr⟩
      cases hpr
      exact Nat.lt_trans (ih hp) (Nat.lt_succ_self _)

theorem parseBufferGo_none {t : Char} {buf : List Char}
    (h : splitOnce t buf = none) :
    ∀ (fuel : Nat), parseBufferGo t fuel buf = ([], buf)
  | 0 => rfl
  | fuel + 1 => by simp [parseBufferGo, h]

theorem parseBufferGo_fuel {t : Char} :
    ∀ (fuel : Nat) (buf : List Char), buf.length ≤ fuel →
      parseBufferGo t fuel buf = parseBufferAux t buf := by
  intro fuel
  induction fuel using Nat.strong_induction_on with
  | _ fuel ih =>
    intro buf hle
    cases hs : splitOnce t buf with
    | none => rw [parseBufferGo_none hs fuel, parseBufferAux, parseBufferGo_none hs _]
    | some p =>
      obtain ⟨m, r⟩ := p
      have hne : buf.length ≠ 0 := by
        intro h0
        rw [List.length_eq_zero.mp h0] at hs
        simp [splitOnce] at hs
      obtain ⟨k, hk⟩ := Nat.exists_eq_succ_of_ne_zero hne
      obtain ⟨f, hf⟩ := Nat.exists_eq_succ_of_ne_zero
        (by omega : fuel ≠ 0)
      have hrk : r.length ≤ k := Nat.lt_succ_iff.mp (hk ▸ splitOnce_length hs)
      have hrf : r.length ≤ f := by omega
      subst hf
      rw [parseBufferAux, hk]
      simp only [parseBufferGo, hs]
      rw [ih f (Nat.lt_succ_self f) r hrf,
        ih k (by omega) r hrk]

theorem parseBufferAux_none {t : Char} {buf : List Char}
    (h : splitOnce t buf = none) : parseBufferAux t buf = ([], buf) :=
  parseBufferGo_none h _

theorem parseBufferAux_some {t : Char} {buf m r : List Char}
    (h : splitOnce t buf = some (m, r)) :
    parseBufferAux t buf = (m :: (parseBufferAux t r).1, (parseBufferAux t r).2) := by
  have hne : buf.length ≠ 0 := by
    intro h0
    rw [List.length_eq_zero.mp h0] at h
    simp [splitOnce] at h
  obtain ⟨k, hk⟩ := Nat.exists_eq_succ_of_ne_zero hne
  have hrk : r.length ≤ k := Nat.lt_succ_iff.mp (hk ▸ splitOnce_length h)
  rw [parseBufferAux, hk]
  simp only [parseBufferGo, h]
  rw [parseBufferGo_fuel k r hrk]

theorem parseBufferAux_snd_not_mem (t : Char) (buf : List Char) :
    t ∉ (parseBufferAux t buf).2 := by
  generalize hn : buf.length = n
  induction n using Nat.strong_induction_on generalizing buf with
  | _ n ih =>
    cases hs : splitOnce t buf with
    | none =>
      rw [parseBufferAux_none hs]
      exact (splitOnce_eq_none buf).mp hs
    | some p =>
      obtain ⟨m, r⟩ := p
      rw [parseBufferAux_some hs]
      exact ih r.length (hn ▸ splitOnce_length hs) r rfl

theorem parseBufferAux_append (t : Char) (buf ext : List Char) :
    parseBufferAux t (buf ++ ext) =
      ((parseBufferAux t buf).1 ++ (parseBufferAux t ((parseBufferAux t buf).2 ++ ext)).1,
        (parseBufferAux t ((parseBufferAux t buf).2 ++ ext)).2) := by
  generalize hn : buf.length = n
  induction n using Nat.strong_induction_on generalizing buf ext with
  | _ n ih =>
    cases hs : splitOnce t buf with
    | none =>
      rw [parseBufferAux_none hs]
      simp
    | some p =>
      obtain ⟨m, r⟩ := p
      rw [parseBufferAux_some (splitOnce_append_some ext hs), parseBufferAux_some hs,
        ih r.length (hn ▸ splitOnce_length hs) r ext rfl]
      simp

theorem parseBufferAux_joinFrames (frames : List (List Char)) (trailing : List Char)
    (hf : ∀ f ∈ frames, messageTerminator ∉ f) (ht : messageTerminator ∉ trailing) :
    parseBufferAux messageTerminator (joinFrames frames ++ trailing) = (frames, trailing) := by
  induction frames with
  | nil =>
    have : joinFrames [] ++ trailing = trailing := by simp [joinFrames]
    rw [this]
    exact parseBufferAux_none ((splitOnce_eq_none trailing).mpr ht)
  | cons f fs ih =>
    have hf0 : messageTerminator ∉ f := hf f (List.mem_cons_self f fs)
    have hstep : joinFrames (f :: fs) ++ trailing
        = f ++ messageTerminator :: (joinFrames fs ++ trailing) := by
      simp [joinFrames]
    rw [hstep, parseBufferAux_some (splitOnce_not_mem_append hf0 _),
      ih (fun g hg => hf g (List.mem_cons_of_mem f hg))]

theorem feedChunk_append (r : MessageReceiver) (a b : List Char) :
    feedChunk r (a ++ b) = feedChunk (feedChunk r a) b := by
  simp only [feedChunk, parse_buffer]
  rw [← List.append_assoc, parseBufferAux_append messageTerminator (r.buffer ++ a) b]
  simp

theorem feedChunks_eq_flatten (r : MessageReceiver) (chunks : List (List Char))
    (hr : messageTerminator ∉ r.buffer) :
    feedChunks r chunks = feedChunk r chunks.flatten := by
  induction chunks generalizing r with
  | nil =>
    have : parseBufferAux messageTerminator r.buffer = ([], r.buffer) :=
      parseBufferAux_none ((splitOnce_eq_none r.buffer).mpr hr)
    simp [feedChunks, feedChunk, parse_buffer, this]
  | cons c cs ih =>
    have h1 : feedChunks r (c :: cs) = feedChunks (feedChunk r c) cs := by
      simp [feedChunks]
    rw [h1, ih (feedChunk r c) (parseBufferAux_snd_not_mem _ _), ← feedChunk_append]
    simp

theorem takeLastLoop_spec :
    ∀ (n : Nat) (ms acc : List (List Char)),
      takeLastLoop n ms acc = (acc ++ ms.reverse.take n, (ms.reverse.drop n).reverse) := by
  intro n
  induction n with
  | zero => intro ms acc; simp [takeLastLoop]
  | succ n ih =>
    intro ms acc
    rcases List.eq_nil_or_concat ms with rfl | ⟨l, a, rfl⟩
    · simp [takeLastLoop]
    · simp only [List.concat_eq_append]
      simp only [takeLastLoop, List.getLast?_concat, List.dropLast_concat, ih,
        List.reverse_append, List.reverse_cons, List.reverse_nil, List.nil_append,
        List.cons_append, List.take_succ_cons, List.drop_succ_cons, List.append_assoc]

theorem reverse_take_reverse {α : Type} (l : List α) (n : Nat) :
    (l.reverse.take n).reverse = l.drop (l.length - n) := by
  induction l using List.reverseRecOn generalizing n with
  | nil => simp
  | append_singleton l a ih =>
    cases n with
    | zero => simp [List.drop_length]
    | succ n =>
      have hle : l.length - n ≤ l.length := Nat.sub_le _ _
      simp only [List.reverse_append, List.reverse_cons, List.reverse_nil,
        List.nil_append, List.cons_append, List.take_succ_cons, List.reverse_cons, ih,
        List.length_append, List.length_cons, List.length_nil]
      rw [show l.length + (0 + 1) - (n + 1) = l.length - n by omega,
        List.drop_append_of_le_length hle]

theorem get_last_messages_spec (num : Nat) (chunks : List (List Char))
    (r : MessageReceiver) :
    (get_last_messages num chunks r).1 = takeLast num (recv_all chunks r).messages ∧
    (get_last_messages num chunks r).2.messages = [] := by
  constructor
  · simp only [get_last_messages, takeLastLoop_spec, List.nil_append, takeLast]
    exact reverse_take_reverse _ _
  · rfl

/-! ## Claim theorems -/

/-- C1: the spec claims every `update_log` call decodes the pending messages,
invokes the observer with the decoded batch, appends the events, and never
raises on well-formed input.  The code instead applies the single-message
decoder `message2codepayload` to the whole message list, so every call raises
`AttributeError`, never invokes the callback and never extends the log. -/
theorem update_log_always_raises (chunks : List (List Char)) (maxlen : Nat)
    (r : MessageReceiver) (log : List Event) :
    (update_log chunks maxlen r log).err
        = some (.attributeError "list object has no attribute startswith") ∧
    (update_log chunks maxlen r log).observerCalls = [] ∧
    (update_log chunks maxlen r log).log = log :=
  ⟨rfl, rfl, rfl⟩

/-- C2: the spec claims that with generic-error checking enabled any log code
beginning with `"1"` (such as `"1013"` or `"1005"`) raises the generic error
fault.  `handle_errors` looks up the literal code `"1"` with an equality test,
so a log holding `"1013"` and `"1005"` raises nothing and is left unchanged. -/
theorem handle_errors_ignores_generic_error_codes :
    handle_errors "m" [("1013".toList, "x".toList), ("1005".toList, [])]
      = .ok [("1013".toList, "x".toList), ("1005".toList, [])] := by rfl

/-- C3: the spec claims each telemetry quantity comes from the chronologically
newest matching frame in the 10-frame window.  With two `2210` (v9 joints)
frames queued — the older carrying `1,1,1,1,1,1` and the newer `2,2,2,2,2,2` —
`get_data` returns the value of the *oldest* matching frame: `get_data`
reverses the window to newest-first and `extract_payload_from_messages` keeps
overwriting its result on every match, so the last (oldest) match wins. -/
theorem get_data_returns_oldest_matching_frame :
    (get_data_v9 (fun s => s) []
        ⟨[], ["[2210][1,1,1,1,1,1]".toList, "[2210][2,2,2,2,2,2]".toList]⟩).2
      = .ok (some (payload2tuple (fun s => s) "1,1,1,1,1,1".toList),
          none, none, none) ∧
    payload2tuple (fun s => (s : List Char)) "1,1,1,1,1,1".toList
      ≠ payload2tuple (fun s => s) "2,2,2,2,2,2".toList := by
  refine ⟨by decide, by decide⟩

/-- C4: the spec claims three distinct timeout regimes (`None` blocks, `0`
polls without blocking, `t > 0` waits at most `t`), not collapsed and not
replaced by a default in the request-command path.  Because the source guards
with Python truthiness (`if timeout:` / `if not timeout:`), a timeout of `0`
selects with no timeout at all — exactly like `None` — and
`send_request_command` replaces `0` by the 1-second default. -/
theorem timeout_zero_collapsed :
    wait_for_new_messages (some 0) = SelectCall.blocking ∧
    wait_for_new_messages none = SelectCall.blocking ∧
    (∀ t : Rat, t ≠ 0 → wait_for_new_messages (some t) = SelectCall.withTimeout t) ∧
    send_request_command_timeout (some 0) = some request_commands_response_timeout := by
  refine ⟨by rfl, by rfl, ?_, by rfl⟩
  intro t ht
  simp [wait_for_new_messages, timeoutTruthy, ht]

/-- C4 witness: the bounded regime clause instantiated at `t = 2`. -/
theorem timeout_zero_collapsed_witness :
    wait_for_new_messages (some 2) = SelectCall.withTimeout 2 :=
  (timeout_zero_collapsed.2.2.1) 2 (by norm_num)

/-- C5: the spec claims every operation keeps the survivors in insertion
order.  On the log `[("2007","a"), ("1005","b"), ("2000","c")]`, looking up
`"1005"` (no purge) removes that event but leaves the remaining deque
*reversed* — the source calls `self.log.reverse()`, removes, and then writes
`self.log.reverse` without parentheses, a no-op — so the surviving events
come out as `[("2000","c"), ("2007","a")]` instead of
`[("2007","a"), ("2000","c")]`. -/
theorem log_order_broken_by_removal :
    (get_last_code_occurance "1005".toList false
        [("2007".toList, "a".toList), ("1005".toList, "b".toList),
          ("2000".toList, "c".toList)]).2
      = [("2000".toList, "c".toList), ("2007".toList, "a".toList)] ∧
    [("2000".toList, "c".toList), ("2007".toList, "a".toList)]
      ≠ [("2007".toList, "a".toList), ("2000".toList, "c".toList)] := by
  refine ⟨rfl, ?_⟩
  decide

/-- C6: on the log with codes `["2007","1005","2007","2000"]` (payloads
`a,b,c,d`), `get_last_code_occurance("2007")` does return the third element
and removes exactly that occurrence, but — because the final un-called
`self.log.reverse` is a no-op — the log afterwards is the *reversed*
remainder `[("2000","d"),("1005","b"),("2007","a")]`, not the claimed
in-order remainder `[("2007","a"),("1005","b"),("2000","d")]`. -/
theorem last_occurance_leaves_log_reversed :
    (get_last_code_occurance "2007".toList false
        [("2007".toList, "a".toList), ("1005".toList, "b".toList),
          ("2007".toList, "c".toList), ("2000".toList, "d".toList)]).1
      = some ("2007".toList, "c".toList) ∧
    (get_last_code_occurance "2007".toList false
        [("2007".toList, "a".toList), ("1005".toList, "b".toList),
          ("2007".toList, "c".toList), ("2000".toList, "d".toList)]).2
      = [("2000".toList, "d".toList), ("1005".toList, "b".toList),
          ("2007".toList, "a".toList)] ∧
    [("2000".toList, "d".toList), ("1005".toList, "b".toList),
        ("2007".toList, "a".toList)]
      ≠ [("2007".toList, "a".toList), ("1005".toList, "b".toList),
          ("2000".toList, "d".toList)] := by
  refine ⟨rfl, rfl, ?_⟩
  decide

/-- C7: framing round-trip.  For any sequence of well-formed frames (frames
never contain the NUL delimiter) terminated by the delimiter, followed by any
delimiter-free trailing bytes, fed to the framer in arbitrarily sized chunks,
the parsed message queue equals the original frame sequence in order and the
trailing bytes remain buffered. -/
theorem framing_roundtrip_chunks (frames chunks : List (List Char))
    (trailing : List Char)
    (hf : ∀ f ∈ frames, messageTerminator ∉ f)
    (ht : messageTerminator ∉ trailing)
    (hjoin : chunks.flatten = joinFrames frames ++ trailing) :
    feedChunks ⟨[], []⟩ chunks = ⟨trailing, frames⟩ := by
  rw [feedChunks_eq_flatten ⟨[], []⟩ chunks (by simp), hjoin]
  simp [feedChunk, parse_buffer, parseBufferAux_joinFrames frames trailing hf ht]

/-- C7 witness: the frames `[2000][]` and `[2007][1,2]` followed by the
incomplete frame `[20`, fed one byte at a time. -/
theorem framing_roundtrip_chunks_witness :
    feedChunks ⟨[], []⟩
        (("[2000][]".toList ++ [messageTerminator] ++ "[2007][1,2]".toList
          ++ [messageTerminator] ++ "[20".toList).map (fun c => [c]))
      = ⟨"[20".toList, ["[2000][]".toList, "[2007][1,2]".toList]⟩ :=
  framing_roundtrip_chunks ["[2000][]".toList, "[2007][1,2]".toList] _ "[20".toList
    (by decide) (by decide) (by decide)

/-- C8: the spec claims a dispatch with `specificErrorCodes=["1013"]` and
generic checking enabled, against a log holding `"1013"` and `"1005"`, raises
the specific-error fault citing `1013`.  The dispatch instead raises
`AttributeError` inside its very first `update_log` call — before any error
check runs — because `update_log` hands the whole message list to the
single-message decoder. -/
theorem dispatch_crashes_before_error_checks :
    (send_command_handled [] [] [] "ActivateRobot".toList "ActivateRobot" []
        ["1013".toList] ["2000".toList] true none
        ⟨⟨[], []⟩, [("1013".toList, "e".toList), ("1005".toList, "f".toList)],
          100, []⟩).2
      = .error (.attributeError "list object has no attribute startswith") := by
  rfl

/-- C9: the spec claims each dispatch waits, checks, and retries exactly once
before returning a response or raising response-not-found (or returns an
empty result when no response codes are requested).  In the code every
dispatch raises `AttributeError` in its initial `update_log`: the command is
never even sent (the `sent` trace is unchanged), so no wait, no response
check and no retry ever happen. -/
theorem dispatch_never_sends_or_retries (chunks1 chunks2 chunks3 : List (List Char))
    (cmd : List Char) (method : String) (ctr ec rc : List (List Char))
    (hae : Bool) (t : Option Rat) (st : ControllerState) :
    (send_command_handled chunks1 chunks2 chunks3 cmd method ctr ec rc hae t st).2
        = .error (.attributeError "list object has no attribute startswith") ∧
    (send_command_handled chunks1 chunks2 chunks3 cmd method ctr ec rc hae t st).1.sent
        = st.sent :=
  ⟨rfl, rfl⟩

/-- C10: in every `update_log` call, the messages taken from the receiver are
exactly the newest `maxlen` pending ones (oldest first, at most `maxlen` of
them), the receiver queue is left empty, and no pending message — in
particular none of the discarded older ones — is ever appended to the log or
handed to the observer callback. -/
theorem update_log_receiver_drain (chunks : List (List Char)) (maxlen : Nat)
    (r : MessageReceiver) (log : List Event) :
    (update_log chunks maxlen r log).receiver.messages = [] ∧
    (update_log chunks maxlen r log).observerCalls = [] ∧
    (update_log chunks maxlen r log).log = log ∧
    (get_last_messages maxlen chunks r).1
        = takeLast maxlen (recv_all chunks r).messages ∧
    (get_last_messages maxlen chunks r).1.length ≤ maxlen := by
  refine ⟨rfl, rfl, rfl, (get_last_messages_spec maxlen chunks r).1, ?_⟩
  rw [(get_last_messages_spec maxlen chunks r).1]
  simp only [takeLast, List.length_drop]
  omega

end Meca
